import Mathlib

/-!
# RecipeGenerator front end (`backend/static/js/app.js`)

A shallow embedding of the browser script: the module-level cache `allRecipes`, the three
functions `fetchStats`, `fetchRecipes` and `generateRecipe`, and the fragment of JavaScript and
DOM behaviour they rely on (property reads, `ToString`, `Array.prototype.find` / `sort`,
`Object.entries`, the options of a `select`, `classList`).

Conventions of the embedding.

* JavaScript values are the values `JSON.parse` can produce, plus `undefined`. Numbers are
  integers; how a number prints is a function of the host (`Env`).
* An exception is the `Except.error` result. Every statement of `generateRecipe` that can throw
  runs before its first assignment to the page, so an error result means "page unchanged".
* `innerHTML` of an element is the markup text last assigned to it; the constant option markup
  assigned to the selector is kept in parsed form, as a list of `OptionEl`.
* A network request is answered by a function from the requested URL to a `FetchOutcome`; the
  asynchronous function `fetchRecipes` is the composition of the part that runs before the first
  `await` (`fetchRecipesStart`) and the part that runs once the response is there
  (`fetchRecipesResolve`).
-/

namespace RecipeGenerator

set_option maxRecDepth 100000

/-! ## JavaScript values -/

/-- Values produced by `JSON.parse`, plus `undefined`. An object carries its own properties in
enumeration order, the order in which `Object.entries` lists them. -/
inductive JSValue where
  | undefined
  | null
  | bool (b : Bool)
  | num (n : Int)
  | str (s : String)
  | arr (xs : List JSValue)
  | obj (props : List (String × JSValue))

/-- Exceptions the script can meet. Both `catch` blocks of the script catch all of them. -/
inductive JSError where
  | typeError
  | syntaxError
  | networkError
  deriving DecidableEq, Repr

/-- Host functions whose result the language leaves to the implementation or the locale. -/
structure Env where
  /-- Result of `a.localeCompare(b)`: negative, zero or positive. -/
  localeCompare : String → String → Int
  /-- Result of `ToString` on a number. -/
  numberToString : Int → String
  /-- Result of `Number.prototype.toLocaleString`. -/
  numberToLocaleString : Int → String
  /-- Separator used by `Array.prototype.toLocaleString`. -/
  listSeparator : String
  /-- Source text `ToString` gives for the built-in function stored in `Object.prototype`
  under the given key. -/
  nativeFunctionToString : String → String

/-- Own property of an object with the given key, if any. -/
def ownProperty (props : List (String × JSValue)) (key : String) : Option JSValue :=
  match props.find? (fun p => p.1 == key) with
  | some p => some p.2
  | none => none

/-- Property read `v.key` for a key that no built-in prototype defines (`name`, `ingredients`,
`base_time`, `combinations`, `shop_only_recipes`): reading from `undefined` or `null` throws, an
object yields its own property or `undefined`, any other value yields `undefined`. -/
def getField (v : JSValue) (key : String) : Except JSError JSValue :=
  match v with
  | .undefined => .error .typeError
  | .null => .error .typeError
  | .obj props => .ok ((ownProperty props key).getD .undefined)
  | _ => .ok .undefined

/-- JavaScript truthiness, negated: the values `!v` is true for. -/
def isFalsy : JSValue → Bool
  | .undefined => true
  | .null => true
  | .bool b => !b
  | .num n => n == 0
  | .str s => s == ""
  | _ => false

/-- Comparison `v === s` of a value with a string. -/
def strictEqString (v : JSValue) (s : String) : Bool :=
  match v with
  | .str t => t == s
  | _ => false

mutual
/-- The abstract operation `ToString`, as applied by a template literal. An object whose own
property shadows `toString` has no callable conversion method left and throws. -/
def toStr (env : Env) : JSValue → Except JSError String
  | .undefined => .ok "undefined"
  | .null => .ok "null"
  | .bool b => .ok (if b then "true" else "false")
  | .num n => .ok (env.numberToString n)
  | .str s => .ok s
  | .arr xs => joinFrom env true xs
  | .obj props =>
    if (ownProperty props "toString").isSome then .error .typeError else .ok "[object Object]"
/-- Body of `Array.prototype.join(",")`: `undefined` and `null` elements print as the empty
string; `first` says that no element has been printed yet. -/
def joinFrom (env : Env) (first : Bool) : List JSValue → Except JSError String
  | [] => .ok ""
  | x :: xs =>
    match (match x with
      | .undefined => Except.ok ""
      | .null => Except.ok ""
      | v => toStr env v), joinFrom env false xs with
    | .ok a, .ok b => .ok ((if first then "" else ",") ++ a ++ b)
    | .error e, _ => .error e
    | .ok _, .error e => .error e
end

mutual
/-- Method call `v.toLocaleString()`. -/
def toLocaleStr (env : Env) : JSValue → Except JSError String
  | .undefined => .error .typeError
  | .null => .error .typeError
  | .bool b => .ok (if b then "true" else "false")
  | .num n => .ok (env.numberToLocaleString n)
  | .str s => .ok s
  | .arr xs => localeJoinFrom env true xs
  | .obj props =>
    if (ownProperty props "toLocaleString").isSome then .error .typeError
    else if (ownProperty props "toString").isSome then .error .typeError
    else .ok "[object Object]"
/-- Body of `Array.prototype.toLocaleString`. -/
def localeJoinFrom (env : Env) (first : Bool) : List JSValue → Except JSError String
  | [] => .ok ""
  | x :: xs =>
    match (match x with
      | .undefined => Except.ok ""
      | .null => Except.ok ""
      | v => toLocaleStr env v), localeJoinFrom env false xs with
    | .ok a, .ok b => .ok ((if first then "" else env.listSeparator) ++ a ++ b)
    | .error e, _ => .error e
    | .ok _, .error e => .error e
end

/-- Entries of an array for `Object.entries`: the indices, printed in decimal, from `i` on. -/
def indexEntries : Nat → List JSValue → List (String × JSValue)
  | _, [] => []
  | i, x :: xs => (toString i, x) :: indexEntries (i + 1) xs

/-- The call `Object.entries(v)`. A string lists its characters (exact for text of the Basic
Multilingual Plane, where a character is one UTF-16 code unit). -/
def objectEntries (v : JSValue) : Except JSError (List (String × JSValue)) :=
  match v with
  | .undefined => .error .typeError
  | .null => .error .typeError
  | .obj props => .ok props
  | .arr xs => .ok (indexEntries 0 xs)
  | .str s => .ok (indexEntries 0 (s.toList.map fun c => JSValue.str (String.singleton c)))
  | _ => .ok []

/-- Loop of `Array.prototype.find` with the callback `r => r.name === selectedName`. -/
def findByName (selectedName : String) : List JSValue → Except JSError JSValue
  | [] => .ok .undefined
  | r :: rest =>
    match getField r "name" with
    | .error e => .error e
    | .ok n => if strictEqString n selectedName then .ok r else findByName selectedName rest

/-- The call `allRecipes.find(r => r.name === selectedName)`: only an array has a `find`
method. -/
def arrayFind (cache : JSValue) (selectedName : String) : Except JSError JSValue :=
  match cache with
  | .arr rs => findByName selectedName rs
  | _ => .error .typeError

/-- The comparator `(a, b) => a.name.localeCompare(b.name)`: `a.name` has the method only when
it is a string; the argument `b.name` is converted with `ToString`. -/
def compareNames (env : Env) (a b : JSValue) : Except JSError Int :=
  match getField a "name" with
  | .error e => .error e
  | .ok (.str s) =>
    match getField b "name" with
    | .error e => .error e
    | .ok bn =>
      match toStr env bn with
      | .error e => .error e
      | .ok t => .ok (env.localeCompare s t)
  | .ok _ => .error .typeError

/-- Insertion of `a` in front of the first element it does not compare greater than. -/
def orderedInsertM (cmp : JSValue → JSValue → Except JSError Int) (a : JSValue) :
    List JSValue → Except JSError (List JSValue)
  | [] => .ok [a]
  | b :: l =>
    match cmp a b with
    | .error e => .error e
    | .ok c =>
      if c ≤ 0 then .ok (a :: b :: l)
      else
        match orderedInsertM cmp a l with
        | .error e => .error e
        | .ok r => .ok (b :: r)

/-- Stable sort with a comparator that may throw. `Array.prototype.sort` is stable and leaves
the choice of the compared pairs to the engine; here they are those of an insertion sort. A
throwing comparator aborts the sort before anything is written back to the array. -/
def sortM (cmp : JSValue → JSValue → Except JSError Int) :
    List JSValue → Except JSError (List JSValue)
  | [] => .ok []
  | a :: l =>
    match sortM cmp l with
    | .error e => .error e
    | .ok l' => orderedInsertM cmp a l'

/-- The call `allRecipes.sort((a, b) => a.name.localeCompare(b.name))`. -/
def arraySort (env : Env) (v : JSValue) : Except JSError (List JSValue) :=
  match v with
  | .arr xs => sortM (compareNames env) xs
  | _ => .error .typeError

/-! ## The page -/

/-- An `option` element of the selector: its `value` content attribute when it has one, its
child text as assigned through `option.text` or written in the markup, and its `disabled` and
`selected` flags. -/
structure OptionEl where
  valueAttr : Option String
  text : String
  disabled : Bool
  selected : Bool
  deriving DecidableEq, Repr

/-- The `value` of an option: the `value` attribute, or the text when there is none (the only
option the script leaves without the attribute has a text free of surplus white space). -/
def OptionEl.value (o : OptionEl) : String :=
  o.valueAttr.getD o.text

/-- The `value` of the selector: the value of the first selected option, or the empty string
when no option is selected. -/
def selectValue (options : List OptionEl) : String :=
  match options.find? (fun o => o.selected) with
  | some o => o.value
  | none => ""

/-- An element whose markup and class list the script writes. -/
structure Element where
  innerHTML : String
  classList : List String
  deriving DecidableEq, Repr

/-- The call `classList.add(...tokens)`: a token already present is not added again. -/
def classListAdd (classList tokens : List String) : List String :=
  tokens.foldl (fun acc t => if t ∈ acc then acc else acc ++ [t]) classList

/-- The call `classList.remove(...tokens)`. -/
def classListRemove (classList tokens : List String) : List String :=
  classList.filter (fun c => !(tokens.contains c))

/-- State the script reads and writes: the module variable `allRecipes`, the checkbox
`#shop-filter`, the options of `#recipe-select`, the element `#result-container`, the markup
of `#stats-container`, and the messages passed to `console.error`. -/
structure State where
  allRecipes : JSValue
  shopFilter : Bool
  recipeSelect : List OptionEl
  resultContainer : Element
  statsContainer : String
  console : List String

/-- What a request comes back with: `fetch` rejects, `res.json()` rejects, or a payload is
decoded. -/
inductive FetchOutcome where
  | networkFailure
  | undecodable
  | decoded (payload : JSValue)

/-- The constant `API_URL`. -/
def API_URL : String := "http://localhost:8000/api"

/-- The option in `<option value="" disabled selected>Loading...</option>`. -/
def loadingOption : OptionEl :=
  { valueAttr := some "", text := "Loading...", disabled := true, selected := true }

/-- The option in `<option value="" disabled selected>Choose a recipe...</option>`. -/
def chooseOption : OptionEl :=
  { valueAttr := some "", text := "Choose a recipe...", disabled := true, selected := true }

/-- The option in `<option value="" disabled selected>Error loading recipes</option>`. -/
def errorOption : OptionEl :=
  { valueAttr := some "", text := "Error loading recipes", disabled := true, selected := true }

/-- The option built for an empty result: created, disabled, given its text. -/
def noRecipesOption : OptionEl :=
  { valueAttr := none, text := "No recipes found matching criteria", disabled := true,
    selected := false }

/-! ## `fetchStats` -/

/-- Markup `fetchStats` writes around the count. -/
def statsHtml (count : String) : String :=
  "\n            <div class=\"px-3 py-1 rounded-full glass-card border-emerald-500/30 text-emerald-400\">\n                <span class=\"font-bold text-white\">"
    ++ count ++ "</span> Recipes\n            </div>\n        "

/-- The function `fetchStats`, run to completion: any failure is caught and logged. -/
def fetchStats (env : Env) (net : String → FetchOutcome) (s : State) : State :=
  match net (API_URL ++ "/stats") with
  | .decoded data =>
    match (getField data "shop_only_recipes").bind (toStr env) with
    | .ok count => { s with statsContainer := statsHtml count }
    | .error _ => { s with console := s.console ++ ["Failed to fetch stats"] }
  | _ => { s with console := s.console ++ ["Failed to fetch stats"] }

/-! ## `fetchRecipes` -/

/-- The request URL of `fetchRecipes`. -/
def recipesUrl (shopOnly : Bool) : String :=
  API_URL ++ "/recipes?shop_only=" ++ (if shopOnly then "true" else "false")

/-- Body of the `forEach` callback: a new option whose value and text are `recipe.name`. -/
def recipeOption (env : Env) (recipe : JSValue) : Except JSError OptionEl :=
  match getField recipe "name" with
  | .error e => .error e
  | .ok n =>
    match toStr env n with
    | .error e => .error e
    | .ok t => .ok { valueAttr := some t, text := t, disabled := false, selected := false }

/-- The loop `allRecipes.forEach(recipe => ...)`: the options added to the selector. -/
def recipeOptions (env : Env) : List JSValue → Except JSError (List OptionEl)
  | [] => .ok []
  | r :: rest =>
    match recipeOption env r with
    | .error e => .error e
    | .ok o =>
      match recipeOptions env rest with
      | .error e => .error e
      | .ok os => .ok (o :: os)

/-- Part of `fetchRecipes` that runs before the request is answered. -/
def fetchRecipesStart (s : State) : State :=
  { s with
    recipeSelect := [loadingOption]
    resultContainer :=
      { s.resultContainer with
        classList := classListAdd s.resultContainer.classList ["opacity-0", "translate-y-4"] } }

/-- The `catch` block of `fetchRecipes`. -/
def fetchRecipesCatch (s : State) : State :=
  { s with
    console := s.console ++ ["Failed to fetch recipes"]
    recipeSelect := [errorOption] }

/-- Part of `fetchRecipes` that runs once the request is answered; `shopOnly` is the value read
from the checkbox at the start. The call of `fetchStats` at the end of the `try` block is not
awaited; it writes `#stats-container` and the console only, and is run here to completion. -/
def fetchRecipesResolve (env : Env) (net : String → FetchOutcome) (shopOnly : Bool)
    (s : State) : State :=
  match net (recipesUrl shopOnly) with
  | .networkFailure => fetchRecipesCatch s
  | .undecodable => fetchRecipesCatch s
  | .decoded payload =>
    let s1 := { s with allRecipes := payload }
    match arraySort env payload with
    | .error _ => fetchRecipesCatch s1
    | .ok sorted =>
      let s2 := { s1 with allRecipes := .arr sorted }
      if sorted.length = 0 then
        fetchStats env net { s2 with recipeSelect := [chooseOption, noRecipesOption] }
      else
        match recipeOptions env sorted with
        | .error _ => fetchRecipesCatch s2
        | .ok options => fetchStats env net { s2 with recipeSelect := chooseOption :: options }

/-- The function `fetchRecipes`. -/
def fetchRecipes (env : Env) (net : String → FetchOutcome) (s : State) : State :=
  fetchRecipesResolve env net s.shopFilter (fetchRecipesStart s)

/-! ## `generateRecipe` -/

/-- Markup of one ingredient chip. -/
def chipHtml (item : String) : String :=
  "<span class=\"inline-block bg-white/5 rounded-lg px-2 py-1 text-xs mr-1 mb-1 border border-white/5 hover:bg-white/10 transition-colors cursor-default\">"
    ++ item ++ "</span>"

/-- Markup shown for a category without items. -/
def noItemsHtml : String := "<span class=\"text-red-400 italic\">No items available</span>"

/-- The expression `itemList.map(i => chip).join('')`. -/
def chipsHtml (env : Env) : List JSValue → Except JSError String
  | [] => .ok ""
  | i :: rest =>
    match toStr env i with
    | .error e => .error e
    | .ok t =>
      match chipsHtml env rest with
      | .error e => .error e
      | .ok r => .ok (chipHtml t ++ r)

/-- The expression `Array.isArray(items) ? items : []`. -/
def itemListOf (items : JSValue) : List JSValue :=
  match items with
  | .arr xs => xs
  | _ => []

/-- Markup of one category, given the markup of its items. -/
def groupHtml (name body : String) : String :=
  "\n            <div class=\"mb-4 last:mb-0\">\n                <div class=\"text-xs uppercase tracking-wider text-gray-500 font-semibold mb-2 flex items-center gap-2\">\n                    <span class=\"w-1.5 h-1.5 rounded-full bg-emerald-500\"></span>\n                    "
    ++ name
    ++ "\n                </div>\n                <div class=\"text-sm text-gray-300 bg-black/20 rounded-xl p-3 border border-white/5\">\n                    "
    ++ body ++ "\n                </div>\n            </div>\n        "

/-- One turn of the loop over `Object.entries(recipe.ingredients)`: the markup appended to
`ingredientsHtml` for the entry `[name, items]`. -/
def ingredientGroup (env : Env) (name : String) (items : JSValue) : Except JSError String :=
  let itemList := itemListOf items
  if itemList.length > 0 then
    match chipsHtml env itemList with
    | .error e => .error e
    | .ok chips => .ok (groupHtml name chips)
  else .ok (groupHtml name noItemsHtml)

/-- The loop building `ingredientsHtml`, started from the text accumulated so far. -/
def ingredientsLoop (env : Env) (acc : String) :
    List (String × JSValue) → Except JSError String
  | [] => .ok acc
  | e :: rest =>
    match ingredientGroup env e.1 e.2 with
    | .error err => .error err
    | .ok g => ingredientsLoop env (acc ++ g) rest

/-- Value of `ingredientsHtml` after the loop over `Object.entries(recipe.ingredients)`. -/
def ingredientsHtml (env : Env) (ingredients : JSValue) : Except JSError String :=
  match objectEntries ingredients with
  | .error e => .error e
  | .ok entries => ingredientsLoop env "" entries

/-- The table `IMAGE_MAP`. -/
def IMAGE_MAP : List (String × String) :=
  [("Burger", "food_burger.webp"),
   ("Soup", "food_soup.png"),
   ("Corn Dog", "food_corn_dog.webp"),
   ("Hot Dog", "food_hot_dog.webp"),
   ("Sandwich", "food_sandwich.webp"),
   ("Salad", "food_salad.webp"),
   ("Pie", "food_pie.webp"),
   ("Waffle", "food_waffle.webp"),
   ("Pizza", "food_pizza.webp"),
   ("Sushi", "food_sushi.webp"),
   ("Donut", "food_donut.webp"),
   ("Ice Cream", "food_ice_cream.webp"),
   ("Cake", "food_cake.webp"),
   ("Smoothie", "food_smoothie.webp"),
   ("Porridge", "food_porridge.webp"),
   ("Spaghetti", "food_spaghetti.webp"),
   ("Candy Apple", "food_candy_apple.webp"),
   ("Sweet Tea", "food_sweet_tea.webp")]

/-- Keys of `Object.prototype`, the prototype of the object literal `IMAGE_MAP`. All hold a
built-in function, except the accessor `__proto__`, which yields `Object.prototype` itself. -/
def objectPrototypeKeys : List String :=
  ["constructor", "hasOwnProperty", "isPrototypeOf", "propertyIsEnumerable", "toLocaleString",
   "toString", "valueOf", "__proto__", "__defineGetter__", "__defineSetter__",
   "__lookupGetter__", "__lookupSetter__"]

/-- Result of the property read `IMAGE_MAP[key]`: an own entry of the table, a member
inherited from `Object.prototype`, or `undefined`. -/
inductive MapLookup where
  | file (name : String)
  | inherited (key : String)
  | absent
  deriving DecidableEq, Repr

/-- The property read `IMAGE_MAP[key]`. -/
def lookupImage (key : String) : MapLookup :=
  match IMAGE_MAP.lookup key with
  | some f => .file f
  | none => if key ∈ objectPrototypeKeys then .inherited key else .absent

/-- Text `ToString` gives for the member of `Object.prototype` under `key`. -/
def inheritedToString (env : Env) (key : String) : String :=
  if key = "__proto__" then "[object Object]" else env.nativeFunctionToString key

/-- Value of `imageSrc`, from `imageFile = IMAGE_MAP[key] || ""`: an inherited member is an
object, hence truthy, and is printed into the path. -/
def imageSrc (env : Env) (key : String) : String :=
  match lookupImage key with
  | .file f => if f = "" then "" else "/static/img/foods/" ++ f
  | .inherited k => "/static/img/foods/" ++ inheritedToString env k
  | .absent => ""

/-- The fallback glyph. -/
def fallbackGlyph : String := "<span class=\"text-4xl\">🍲</span>"

/-- Markup of an `img` element with the given source and alternative text. -/
def imgHtml (src alt : String) : String :=
  "<img src=\"" ++ src ++ "\" alt=\"" ++ alt ++ "\" class=\"w-full h-full object-cover\">"

/-- Value of `imageHtml`; `key` is the property key `recipe.name` converts to and `alt` is the
text of `recipe.name`. -/
def imageHtml (env : Env) (key alt : String) : String :=
  if imageSrc env key = "" then fallbackGlyph else imgHtml (imageSrc env key) alt

/-- Markup of the card, given the text of its five interpolations. -/
def cardHtml (image name baseTime combos ingredients : String) : String :=
  "\n        <div class=\"glass-card rounded-2xl p-8 border-t-4 border-t-emerald-500 shadow-2xl shadow-emerald-900/20\">\n            <div class=\"flex items-start justify-between mb-6\">\n                <div class=\"flex items-center gap-4\">\n                    <div class=\"w-16 h-16 rounded-2xl bg-gray-800 border border-gray-700 flex items-center justify-center overflow-hidden shadow-inner\">\n                        "
    ++ image
    ++ "\n                    </div>\n                    <div>\n                        <h3 class=\"text-3xl font-bold text-white\">"
    ++ name
    ++ "</h3>\n                        <div class=\"text-sm text-gray-500 flex gap-4 mt-1\">\n                            <span class=\"flex items-center gap-1\">⏱️ "
    ++ baseTime
    ++ "s</span>\n                            <span class=\"flex items-center gap-1\">🔀 "
    ++ combos
    ++ " Combos</span>\n                        </div>\n                    </div>\n                </div>\n            </div>\n            \n            <div class=\"space-y-2 bg-gray-800/30 rounded-xl p-6 border border-white/5\">\n                "
    ++ ingredients ++ "\n            </div>\n        </div>\n    "

/-- Markup `generateRecipe` assigns to the container for a resolved record: the statements
from `let ingredientsHtml = ''` up to the template literal of the card. -/
def renderCard (env : Env) (recipe : JSValue) : Except JSError String := do
  let ingredients ← getField recipe "ingredients"
  let ingredientsText ← ingredientsHtml env ingredients
  let name ← getField recipe "name"
  let nameText ← toStr env name
  let image := imageHtml env nameText nameText
  let baseTime ← getField recipe "base_time"
  let baseTimeText ← toStr env baseTime
  let combinations ← getField recipe "combinations"
  let combosText ← toLocaleStr env combinations
  pure (cardHtml image nameText baseTimeText combosText ingredientsText)

/-- The function `generateRecipe`. -/
def generateRecipe (env : Env) (s : State) : Except JSError State :=
  let selectedName := selectValue s.recipeSelect
  if selectedName = "" then .ok s
  else
    match arrayFind s.allRecipes selectedName with
    | .error e => .error e
    | .ok recipe =>
      if isFalsy recipe then .ok s
      else
        match renderCard env recipe with
        | .error e => .error e
        | .ok html =>
          .ok { s with
                resultContainer :=
                  { innerHTML := html
                    classList :=
                      classListRemove s.resultContainer.classList
                        ["opacity-0", "translate-y-4"] } }

/-! ## Specification-side definitions and sample data -/

/-- The values a property read throws on. -/
def isNullish : JSValue → Bool
  | .undefined => true
  | .null => true
  | _ => false

/-- Whether the record has a `name` that is a string. -/
def hasStringName (r : JSValue) : Bool :=
  match getField r "name" with
  | .ok (.str _) => true
  | _ => false

/-- The `name` of a record, when it is a string (the empty string otherwise). -/
def recipeName (r : JSValue) : String :=
  match getField r "name" with
  | .ok (.str s) => s
  | _ => ""

/-- Order of two records under the comparator of `fetchRecipes`: the first does not compare
greater than the second. -/
def nameLe (env : Env) (a b : JSValue) : Prop :=
  env.localeCompare (recipeName a) (recipeName b) ≤ 0

instance nameLeDecidable (env : Env) : DecidableRel (nameLe env) :=
  fun a b => inferInstanceAs (Decidable (env.localeCompare (recipeName a) (recipeName b) ≤ 0))

/-- The comparison of the host is a consistent comparator, the condition under which the
language fixes the result of `Array.prototype.sort`: swapping the arguments swaps the sign,
and "not greater" is transitive. -/
structure ConsistentCompare (env : Env) : Prop where
  swap : ∀ a b, env.localeCompare a b < 0 ↔ 0 < env.localeCompare b a
  trans : ∀ a b c, env.localeCompare a b ≤ 0 → env.localeCompare b c ≤ 0 →
    env.localeCompare a c ≤ 0

/-- The option the selector shows for a recipe name. -/
def optionOfName (n : String) : OptionEl :=
  { valueAttr := some n, text := n, disabled := false, selected := false }

/-- Whether every item of every list-valued category is a string, as in the data model. -/
def itemsAreStrings (cats : List (String × JSValue)) : Prop :=
  ∀ c ∈ cats, ∀ xs, c.2 = .arr xs → ∀ x ∈ xs, ∃ t, x = .str t

/-- Specification of the items of a category: the item names of a list, nothing for a value
that is not a list. -/
def specItems : JSValue → List String
  | .arr xs => xs.filterMap fun x =>
      match x with
      | .str t => some t
      | _ => none
  | _ => []

/-- Specification of one group: the chips of the items in list order, or the placeholder when
there is no item. -/
def specGroup (name : String) (items : List String) : String :=
  groupHtml name (if items.isEmpty then noItemsHtml else String.join (items.map chipHtml))

/-- Specification of the ingredient section: one group per category, in category order. -/
def specIngredientSection (cats : List (String × JSValue)) : String :=
  String.join (cats.map fun c => specGroup c.1 (specItems c.2))

/-- Comparison of two texts by code points, as a sample of `localeCompare`. -/
def codePointCompare : List Char → List Char → Int
  | [], [] => 0
  | [], _ :: _ => -1
  | _ :: _, [] => 1
  | a :: as, b :: bs =>
    if a.toNat < b.toNat then -1
    else if b.toNat < a.toNat then 1
    else codePointCompare as bs

/-- A sample host: comparison by code points, numbers printed in decimal without grouping. -/
def sampleEnv : Env :=
  { localeCompare := fun a b => codePointCompare a.toList b.toList
    numberToString := fun n => toString n
    numberToLocaleString := fun n => toString n
    listSeparator := ","
    nativeFunctionToString := fun k =>
      "function " ++ (if k = "constructor" then "Object" else k) ++ "() \x7b [native code] \x7d" }

/-- A sample record from the table of images. -/
def burger : JSValue :=
  .obj [("name", .str "Burger"), ("base_time", .num 30), ("combinations", .num 1234),
        ("ingredients", .obj [("Bun", .arr []), ("Patty", .arr [.str "Beef", .str "Veggie"])])]

/-- A second sample record. -/
def soup : JSValue :=
  .obj [("name", .str "Soup"), ("base_time", .num 45), ("combinations", .num 12),
        ("ingredients", .obj [("Broth", .arr [.str "Water"]), ("Garnish", .str "none")])]

/-- A sample record without an `ingredients` field. -/
def bareRecord : JSValue :=
  .obj [("name", .str "Pie"), ("base_time", .num 10), ("combinations", .num 3)]

/-- A sample record named after a member of `Object.prototype`. -/
def constructorRecord : JSValue :=
  .obj [("name", .str "constructor"), ("base_time", .num 5), ("combinations", .num 1),
        ("ingredients", .obj [])]

/-- A sample page: the given cache, and a selector whose selected option has the given value. -/
def samplePage (cache : JSValue) (selected : String) : State :=
  { allRecipes := cache
    shopFilter := false
    recipeSelect :=
      [{ chooseOption with selected := false },
       { valueAttr := some selected, text := selected, disabled := false, selected := true }]
    resultContainer := { innerHTML := "<p>old</p>", classList := ["opacity-0", "translate-y-4"] }
    statsContainer := ""
    console := [] }

/-- A sample network answering every request with the same outcome. -/
def constNet (o : FetchOutcome) : String → FetchOutcome := fun _ => o

/-- The page after `generateRecipe` assigned the markup `html` to the container and removed
the two classes that hide it; nothing else of the page changes. -/
def withCard (s : State) (html : String) : State :=
  { s with
    resultContainer :=
      { innerHTML := html
        classList := classListRemove s.resultContainer.classList ["opacity-0", "translate-y-4"] } }

/-! ## Lemmas on the lookup -/

theorem getField_ok_of_not_nullish (r : JSValue) (key : String) (h : isNullish r = false) :
    ∃ v, getField r key = .ok v := by
  cases r <;> simp [isNullish, getField] at h ⊢

theorem strictEqString_iff (v : JSValue) (s : String) :
    strictEqString v s = true ↔ v = .str s := by
  cases v <;> simp [strictEqString]

/-- On a cache without `undefined` or `null` elements, a lookup that matches no record yields
`undefined`. -/
theorem findByName_of_no_match (n : String) (rs : List JSValue)
    (hrec : ∀ r ∈ rs, isNullish r = false)
    (hno : ∀ r ∈ rs, getField r "name" ≠ .ok (.str n)) :
    findByName n rs = .ok .undefined := by
  induction rs with
  | nil => rfl
  | cons r rest ih =>
    obtain ⟨v, hv⟩ := getField_ok_of_not_nullish r "name" (hrec r (List.mem_cons_self _ _))
    have hne : strictEqString v n = false := by
      cases hs : strictEqString v n with
      | false => rfl
      | true =>
        have := (strictEqString_iff v n).1 hs
        exact absurd (this ▸ hv) (hno r (List.mem_cons_self _ _))
    simp only [findByName, hv, hne]
    exact ih (fun x hx => hrec x (List.mem_cons_of_mem _ hx))
      (fun x hx => hno x (List.mem_cons_of_mem _ hx))

/-- A lookup that succeeds yields `undefined` or a member of the cache named `n`. -/
theorem findByName_sound (n : String) (rs : List JSValue) (r : JSValue)
    (h : findByName n rs = .ok r) :
    r = .undefined ∨ (r ∈ rs ∧ getField r "name" = .ok (.str n)) := by
  induction rs with
  | nil =>
    simp only [findByName] at h
    left
    cases h
    rfl
  | cons x rest ih =>
    simp only [findByName] at h
    cases hx : getField x "name" with
    | error e => simp [hx] at h
    | ok v =>
      simp only [hx] at h
      cases hs : strictEqString v n with
      | true =>
        simp only [hs, if_true] at h
        cases h
        right
        exact ⟨List.mem_cons_self _ _, by rw [hx, (strictEqString_iff v n).1 hs]⟩
      | false =>
        simp only [hs] at h
        rcases ih h with h1 | ⟨h1, h2⟩
        · exact Or.inl h1
        · exact Or.inr ⟨List.mem_cons_of_mem _ h1, h2⟩

/-- On a cache without `undefined` or `null` elements that holds a record named `n`, the
lookup yields a record. -/
theorem findByName_of_match (n : String) (rs : List JSValue)
    (hrec : ∀ r ∈ rs, isNullish r = false)
    (hex : ∃ r ∈ rs, getField r "name" = .ok (.str n)) :
    ∃ r, findByName n rs = .ok r ∧ r ∈ rs ∧ getField r "name" = .ok (.str n) := by
  induction rs with
  | nil => simp at hex
  | cons x rest ih =>
    obtain ⟨v, hv⟩ := getField_ok_of_not_nullish x "name" (hrec x (List.mem_cons_self _ _))
    cases hs : strictEqString v n with
    | true =>
      refine ⟨x, ?_, List.mem_cons_self _ _, ?_⟩
      · simp [findByName, hv, hs]
      · rw [hv, (strictEqString_iff v n).1 hs]
    | false =>
      have hex' : ∃ r ∈ rest, getField r "name" = .ok (.str n) := by
        obtain ⟨r, hr, hn⟩ := hex
        rcases List.mem_cons.1 hr with rfl | hr'
        · rw [hv] at hn
          cases hn
          simp [strictEqString] at hs
        · exact ⟨r, hr', hn⟩
      obtain ⟨r, h1, h2, h3⟩ := ih (fun y hy => hrec y (List.mem_cons_of_mem _ hy)) hex'
      refine ⟨r, ?_, List.mem_cons_of_mem _ h2, h3⟩
      simp [findByName, hv, hs, h1]

/-- A value with a string `name` is truthy. -/
theorem isFalsy_of_named (r : JSValue) (n : String) (h : getField r "name" = .ok (.str n)) :
    isFalsy r = false := by
  cases r <;> simp [getField, isFalsy] at h ⊢

/-! ## Lemmas on `generateRecipe` -/

/-- With nothing selected, `generateRecipe` returns at once. -/
theorem generateRecipe_of_empty (env : Env) (s : State) (h : selectValue s.recipeSelect = "") :
    generateRecipe env s = .ok s := by
  simp [generateRecipe, h]

/-- When the lookup finds nothing, `generateRecipe` returns without writing. -/
theorem generateRecipe_of_not_found (env : Env) (s : State)
    (h : arrayFind s.allRecipes (selectValue s.recipeSelect) = .ok .undefined) :
    generateRecipe env s = .ok s := by
  unfold generateRecipe
  by_cases hs : selectValue s.recipeSelect = ""
  · simp [hs]
  · simp [hs, h, isFalsy]

/-- When the lookup finds a record, `generateRecipe` throws what rendering it throws, or shows
the card rendered from it. -/
theorem generateRecipe_of_found (env : Env) (s : State) (r : JSValue)
    (hs : selectValue s.recipeSelect ≠ "")
    (h : arrayFind s.allRecipes (selectValue s.recipeSelect) = .ok r)
    (hr : isFalsy r = false) :
    generateRecipe env s = (renderCard env r).map (withCard s) := by
  unfold generateRecipe
  simp only [hs, if_false, h, hr]
  cases renderCard env r <;> rfl

theorem classListRemove_idem (cl tokens : List String) :
    classListRemove (classListRemove cl tokens) tokens = classListRemove cl tokens := by
  simp [classListRemove, List.filter_filter]

theorem withCard_withCard (s : State) (a b : String) :
    withCard (withCard s a) b = withCard s b := by
  simp [withCard, classListRemove_idem]

/-! ## Lemmas on the sort and on `fetchRecipes` -/

theorem getField_name_of_named (r : JSValue) (h : hasStringName r = true) :
    getField r "name" = .ok (.str (recipeName r)) := by
  unfold hasStringName at h
  unfold recipeName
  cases hg : getField r "name" with
  | error e => simp [hg] at h
  | ok v => cases v <;> simp [hg] at h ⊢

theorem toStr_str (env : Env) (t : String) : toStr env (.str t) = .ok t := by
  simp [toStr]

/-- On records with a string name the comparator does not throw and is the comparison of the
host on the two names. -/
theorem compareNames_of_named (env : Env) (a b : JSValue) (ha : hasStringName a = true)
    (hb : hasStringName b = true) :
    compareNames env a b = .ok (env.localeCompare (recipeName a) (recipeName b)) := by
  unfold compareNames
  rw [getField_name_of_named a ha, getField_name_of_named b hb]
  simp [toStr_str]

theorem orderedInsertM_of_named (env : Env) (a : JSValue) (l : List JSValue)
    (ha : hasStringName a = true) (hl : ∀ b ∈ l, hasStringName b = true) :
    orderedInsertM (compareNames env) a l = .ok (l.orderedInsert (nameLe env) a) := by
  induction l with
  | nil => rfl
  | cons b l ih =>
    have hb := hl b (List.mem_cons_self _ _)
    simp only [orderedInsertM, compareNames_of_named env a b ha hb, List.orderedInsert]
    by_cases hc : env.localeCompare (recipeName a) (recipeName b) ≤ 0
    · have : nameLe env a b := hc
      simp [hc, this]
    · have : ¬ nameLe env a b := hc
      simp [hc, this, ih (fun x hx => hl x (List.mem_cons_of_mem _ hx))]

/-- On records with a string name the sort does not throw and is the insertion sort by
name. -/
theorem sortM_of_named (env : Env) (l : List JSValue)
    (hl : ∀ b ∈ l, hasStringName b = true) :
    sortM (compareNames env) l = .ok (l.insertionSort (nameLe env)) := by
  induction l with
  | nil => rfl
  | cons a l ih =>
    have hl' : ∀ b ∈ l, hasStringName b = true := fun x hx => hl x (List.mem_cons_of_mem _ hx)
    simp only [sortM, ih hl', List.insertionSort]
    apply orderedInsertM_of_named env a _ (hl a (List.mem_cons_self _ _))
    intro b hb
    exact hl' b ((List.perm_insertionSort (nameLe env) l).subset hb)

/-- Insertion keeps the records of one name in their order. -/
theorem filter_orderedInsert_name (env : Env) (hrefl : ∀ x, env.localeCompare x x ≤ 0)
    (n : String) (a : JSValue) (l : List JSValue) :
    (l.orderedInsert (nameLe env) a).filter (fun r => recipeName r = n) =
      (a :: l).filter (fun r => recipeName r = n) := by
  induction l with
  | nil => rfl
  | cons b l ih =>
    simp only [List.orderedInsert]
    by_cases hc : nameLe env a b
    · simp [hc]
    · simp only [hc, if_false]
      rw [List.filter_cons, ih]
      by_cases hb : recipeName b = n
      · by_cases ha : recipeName a = n
        · exfalso
          apply hc
          unfold nameLe
          rw [ha, hb]
          exact hrefl n
        · simp [List.filter_cons, ha, hb]
      · simp [List.filter_cons, hb]

/-- The sort is stable: records of one name keep the order they had. -/
theorem filter_insertionSort_name (env : Env) (hrefl : ∀ x, env.localeCompare x x ≤ 0)
    (n : String) (l : List JSValue) :
    (l.insertionSort (nameLe env)).filter (fun r => recipeName r = n) =
      l.filter (fun r => recipeName r = n) := by
  induction l with
  | nil => rfl
  | cons a l ih =>
    rw [List.insertionSort, filter_orderedInsert_name env hrefl, List.filter_cons,
      List.filter_cons, ih]

theorem consistent_total (env : Env) (hc : ConsistentCompare env) (a b : String) :
    env.localeCompare a b ≤ 0 ∨ env.localeCompare b a ≤ 0 := by
  by_cases h : env.localeCompare a b ≤ 0
  · exact Or.inl h
  · right
    have h1 : 0 < env.localeCompare a b := by omega
    have h2 := (hc.swap b a).2 h1
    omega

theorem consistent_refl (env : Env) (hc : ConsistentCompare env) (a : String) :
    env.localeCompare a a ≤ 0 := by
  rcases consistent_total env hc a a with h | h <;> exact h

/-- Under a consistent comparator the sorted list is ascending by name. -/
theorem sorted_insertionSort_name (env : Env) (hc : ConsistentCompare env) (l : List JSValue) :
    (l.insertionSort (nameLe env)).Sorted (nameLe env) := by
  haveI : IsTotal JSValue (nameLe env) := ⟨fun a b => consistent_total env hc _ _⟩
  haveI : IsTrans JSValue (nameLe env) := ⟨fun a b c => hc.trans _ _ _⟩
  exact List.sorted_insertionSort (nameLe env) l

theorem recipeOptions_of_named (env : Env) (l : List JSValue)
    (hl : ∀ b ∈ l, hasStringName b = true) :
    recipeOptions env l = .ok (l.map fun r => optionOfName (recipeName r)) := by
  induction l with
  | nil => rfl
  | cons a l ih =>
    simp [recipeOptions, recipeOption, getField_name_of_named a (hl a (List.mem_cons_self _ _)),
      toStr_str, ih (fun x hx => hl x (List.mem_cons_of_mem _ hx)), optionOfName]

theorem fetchStats_allRecipes (env : Env) (net : String → FetchOutcome) (s : State) :
    (fetchStats env net s).allRecipes = s.allRecipes := by
  unfold fetchStats
  split
  · split <;> rfl
  · rfl

theorem fetchStats_recipeSelect (env : Env) (net : String → FetchOutcome) (s : State) :
    (fetchStats env net s).recipeSelect = s.recipeSelect := by
  unfold fetchStats
  split
  · split <;> rfl
  · rfl

theorem fetchStats_resultContainer (env : Env) (net : String → FetchOutcome) (s : State) :
    (fetchStats env net s).resultContainer = s.resultContainer := by
  unfold fetchStats
  split
  · split <;> rfl
  · rfl

/-- Cache after a fetch that decodes an array of records with string names. -/
theorem fetchRecipes_allRecipes_of_named (env : Env) (net : String → FetchOutcome) (s : State)
    (P : List JSValue) (hnet : net (recipesUrl s.shopFilter) = .decoded (.arr P))
    (hP : ∀ r ∈ P, hasStringName r = true) :
    (fetchRecipes env net s).allRecipes = .arr (P.insertionSort (nameLe env)) := by
  have hs : ∀ r ∈ P.insertionSort (nameLe env), hasStringName r = true :=
    fun r hr => hP r ((List.perm_insertionSort (nameLe env) P).subset hr)
  simp only [fetchRecipes, fetchRecipesResolve, fetchRecipesStart, hnet, arraySort,
    sortM_of_named env P hP, recipeOptions_of_named env _ hs]
  split <;> simp [fetchStats_allRecipes]

/-- Selector after a fetch that decodes an array of records with string names. -/
theorem fetchRecipes_recipeSelect_of_named (env : Env) (net : String → FetchOutcome)
    (s : State) (P : List JSValue)
    (hnet : net (recipesUrl s.shopFilter) = .decoded (.arr P))
    (hP : ∀ r ∈ P, hasStringName r = true) :
    (fetchRecipes env net s).recipeSelect =
      if P.length = 0 then [chooseOption, noRecipesOption]
      else chooseOption :: (P.insertionSort (nameLe env)).map
        fun r => optionOfName (recipeName r) := by
  have hs : ∀ r ∈ P.insertionSort (nameLe env), hasStringName r = true :=
    fun r hr => hP r ((List.perm_insertionSort (nameLe env) P).subset hr)
  simp only [fetchRecipes, fetchRecipesResolve, fetchRecipesStart, hnet, arraySort,
    sortM_of_named env P hP, recipeOptions_of_named env _ hs, List.length_insertionSort]
  split <;> simp [fetchStats_recipeSelect]

/-! ## The sample comparison is consistent -/

theorem codePointCompare_swap (a b : List Char) :
    codePointCompare a b < 0 ↔ 0 < codePointCompare b a := by
  induction a generalizing b with
  | nil => cases b <;> simp [codePointCompare]
  | cons x xs ih =>
    cases b with
    | nil => simp [codePointCompare]
    | cons y ys =>
      simp only [codePointCompare]
      by_cases h1 : x.toNat < y.toNat
      · have h2 : ¬ y.toNat < x.toNat := by omega
        simp [h1, h2]
      · by_cases h2 : y.toNat < x.toNat
        · simp [h1, h2]
        · simp only [h1, h2, if_false]
          exact ih ys

theorem codePointCompare_trans (a b c : List Char) (hab : codePointCompare a b ≤ 0)
    (hbc : codePointCompare b c ≤ 0) : codePointCompare a c ≤ 0 := by
  induction a generalizing b c with
  | nil => cases c <;> simp [codePointCompare]
  | cons x xs ih =>
    cases b with
    | nil => simp [codePointCompare] at hab
    | cons y ys =>
      cases c with
      | nil => simp [codePointCompare] at hbc
      | cons z zs =>
        simp only [codePointCompare] at hab hbc ⊢
        by_cases h1 : x.toNat < y.toNat
        · by_cases h2 : y.toNat < z.toNat
          · have : x.toNat < z.toNat := by omega
            simp [this]
          · by_cases h3 : z.toNat < y.toNat
            · simp [h2, h3] at hbc
            · have : x.toNat < z.toNat := by omega
              simp [this]
        · by_cases h1' : y.toNat < x.toNat
          · simp [h1, h1'] at hab
          · simp only [h1, h1', if_false] at hab
            by_cases h2 : y.toNat < z.toNat
            · have : x.toNat < z.toNat := by omega
              simp [this]
            · by_cases h3 : z.toNat < y.toNat
              · simp [h2, h3] at hbc
              · simp only [h2, h3, if_false] at hbc
                have e1 : ¬ x.toNat < z.toNat := by omega
                have e2 : ¬ z.toNat < x.toNat := by omega
                simp only [e1, e2, if_false]
                exact ih ys zs hab hbc

theorem sampleEnv_consistent : ConsistentCompare sampleEnv :=
  { swap := fun a b => codePointCompare_swap a.toList b.toList
    trans := fun a b c => codePointCompare_trans a.toList b.toList c.toList }

/-! ## Lemmas on the ingredient section -/

theorem foldl_append_eq (acc : String) (l : List String) :
    l.foldl (fun r t => r ++ t) acc = acc ++ String.join l := by
  induction l generalizing acc with
  | nil => simp [String.join]
  | cons x xs ih =>
    simp only [List.foldl_cons, String.join]
    rw [ih (acc ++ x), ih ("" ++ x)]
    simp [String.append_assoc]

theorem join_cons (x : String) (xs : List String) :
    String.join (x :: xs) = x ++ String.join xs := by
  show List.foldl (fun r t => r ++ t) ("" ++ x) xs = x ++ String.join xs
  rw [foldl_append_eq]
  simp

/-- Chips of a list of strings: one chip per item, in list order. -/
theorem chipsHtml_of_strings (env : Env) (xs : List JSValue)
    (h : ∀ x ∈ xs, ∃ t, x = .str t) :
    chipsHtml env xs = .ok (String.join ((specItems (.arr xs)).map chipHtml)) := by
  induction xs with
  | nil => rfl
  | cons x xs ih =>
    obtain ⟨t, rfl⟩ := h _ (List.mem_cons_self _ _)
    have ih' := ih (fun y hy => h y (List.mem_cons_of_mem _ hy))
    simp only [specItems] at ih' ⊢
    simp [chipsHtml, toStr_str, ih', join_cons]

theorem specItems_isEmpty_of_strings (xs : List JSValue) (h : ∀ x ∈ xs, ∃ t, x = .str t) :
    (specItems (.arr xs)).isEmpty = xs.isEmpty := by
  cases xs with
  | nil => rfl
  | cons x xs =>
    obtain ⟨t, rfl⟩ := h _ (List.mem_cons_self _ _)
    simp [specItems]

/-- One turn of the loop renders the group the specification describes. -/
theorem ingredientGroup_of_strings (env : Env) (name : String) (items : JSValue)
    (h : ∀ xs, items = .arr xs → ∀ x ∈ xs, ∃ t, x = .str t) :
    ingredientGroup env name items = .ok (specGroup name (specItems items)) := by
  cases items with
  | arr xs =>
    have hx := h xs rfl
    cases xs with
    | nil => rfl
    | cons y ys =>
      have he : (specItems (.arr (y :: ys))).isEmpty = false := by
        rw [specItems_isEmpty_of_strings _ hx]
        rfl
      simp [ingredientGroup, itemListOf, chipsHtml_of_strings env _ hx, specGroup, he]
  | undefined => rfl
  | null => rfl
  | bool b => rfl
  | num n => rfl
  | str t => rfl
  | obj ps => rfl

theorem ingredientsLoop_of_strings (env : Env) (acc : String) (cats : List (String × JSValue))
    (h : itemsAreStrings cats) :
    ingredientsLoop env acc cats = .ok (acc ++ specIngredientSection cats) := by
  induction cats generalizing acc with
  | nil => simp [ingredientsLoop, specIngredientSection, String.join]
  | cons c cs ih =>
    have hc := ingredientGroup_of_strings env c.1 c.2 (h c (List.mem_cons_self _ _))
    have hcs : itemsAreStrings cs := fun d hd => h d (List.mem_cons_of_mem _ hd)
    simp only [ingredientsLoop, hc, ih _ hcs]
    simp [specIngredientSection, join_cons, String.append_assoc]

theorem ingredientsHtml_of_strings (env : Env) (cats : List (String × JSValue))
    (h : itemsAreStrings cats) :
    ingredientsHtml env (.obj cats) = .ok (specIngredientSection cats) := by
  simp [ingredientsHtml, objectEntries, ingredientsLoop_of_strings env "" cats h]

/-! ## Lemmas on the image and the card -/

theorem foods_path_ne_empty (x : String) : "/static/img/foods/" ++ x ≠ "" := by
  intro h
  have hl := congrArg String.length h
  have h18 : "/static/img/foods/".length = 18 := by decide
  rw [String.length_append, h18] at hl
  have h0 : "".length = 0 := by decide
  omega

theorem imgHtml_ne_fallbackGlyph (src alt : String) : imgHtml src alt ≠ fallbackGlyph := by
  intro h
  have := congrArg String.data h
  simp [imgHtml, fallbackGlyph, String.data_append] at this

/-- A name of the table resolves to the path of the file the table maps it to. -/
theorem imageHtml_of_table (env : Env) (name file alt : String)
    (h : (name, file) ∈ IMAGE_MAP) :
    imageSrc env name = "/static/img/foods/" ++ file ∧
      imageHtml env name alt = imgHtml ("/static/img/foods/" ++ file) alt := by
  simp only [IMAGE_MAP, List.mem_cons, Prod.mk.injEq, List.mem_singleton, List.not_mem_nil,
    or_false] at h
  rcases h with h | h | h | h | h | h | h | h | h | h | h | h | h | h | h | h | h | h <;>
    obtain ⟨rfl, rfl⟩ := h <;> exact ⟨rfl, rfl⟩

theorem lookup_none_of_not_key (l : List (String × String)) (k : String)
    (h : k ∉ l.map Prod.fst) : l.lookup k = none := by
  induction l with
  | nil => rfl
  | cons p ps ih =>
    obtain ⟨a, b⟩ := p
    simp only [List.map_cons, List.mem_cons, not_or] at h
    have hne : (k == a) = false := by simpa using h.1
    simp only [List.lookup, hne]
    exact ih h.2

/-- A name that is neither a key of the table nor a key of `Object.prototype` resolves to the
fallback glyph. -/
theorem imageHtml_of_absent (env : Env) (name alt : String)
    (h1 : name ∉ IMAGE_MAP.map Prod.fst) (h2 : name ∉ objectPrototypeKeys) :
    imageSrc env name = "" ∧ imageHtml env name alt = fallbackGlyph := by
  have hl : IMAGE_MAP.lookup name = none := lookup_none_of_not_key IMAGE_MAP name h1
  have hs : imageSrc env name = "" := by
    simp [imageSrc, lookupImage, hl, h2]
  exact ⟨hs, by simp [imageHtml, hs]⟩

/-- A name that is a key of `Object.prototype` resolves to an `img` element whose source is
the text of the inherited member. -/
theorem imageHtml_of_inherited (env : Env) (name alt : String)
    (h : name ∈ objectPrototypeKeys) :
    imageHtml env name alt =
      imgHtml ("/static/img/foods/" ++ inheritedToString env name) alt := by
  have hl : lookupImage name = .inherited name := by
    simp only [objectPrototypeKeys, List.mem_cons, List.mem_singleton, List.not_mem_nil,
      or_false] at h
    rcases h with h | h | h | h | h | h | h | h | h | h | h | h <;> subst h <;> rfl
  simp [imageHtml, imageSrc, hl, foods_path_ne_empty]

theorem arrayFind_ok_is_arr (cache : JSValue) (n : String) (r : JSValue)
    (h : arrayFind cache n = .ok r) : ∃ rs, cache = .arr rs := by
  cases cache <;> simp [arrayFind] at h ⊢

/-- Card of a record whose fields have the shape of the data model. -/
theorem renderCard_of_fields (env : Env) (r : JSValue) (n : String)
    (cats : List (String × JSValue)) (k : Int) (bt : JSValue) (btText : String)
    (hname : getField r "name" = .ok (.str n))
    (hing : getField r "ingredients" = .ok (.obj cats))
    (hitems : itemsAreStrings cats)
    (hbt : getField r "base_time" = .ok bt) (hbtText : toStr env bt = .ok btText)
    (hcomb : getField r "combinations" = .ok (.num k)) :
    renderCard env r =
      .ok (cardHtml (imageHtml env n n) n btText (env.numberToLocaleString k)
        (specIngredientSection cats)) := by
  simp [renderCard, hname, hing, hbt, hbtText, hcomb, ingredientsHtml_of_strings env cats hitems,
    toStr_str, toLocaleStr, bind, Except.bind, pure, Except.pure]

/-! ## Lemmas on the states `fetchRecipes` leaves -/

theorem recipeOptions_ok_not_nullish (env : Env) (l : List JSValue) (options : List OptionEl)
    (h : recipeOptions env l = .ok options) : ∀ r ∈ l, isNullish r = false := by
  induction l generalizing options with
  | nil => intro r hr; cases hr
  | cons a l ih =>
    simp only [recipeOptions] at h
    cases ha : recipeOption env a with
    | error e => simp [ha] at h
    | ok o =>
      simp only [ha] at h
      cases hl : recipeOptions env l with
      | error e => simp [hl] at h
      | ok os =>
        intro r hr
        rcases List.mem_cons.1 hr with rfl | hr'
        · cases r <;> simp [recipeOption, getField, isNullish] at ha ⊢
        · exact ih os hl r hr'

/-! ## Claims -/

/-- C1: on a cache of records (no `undefined` or `null` element) and for a non-empty selected
name `n`, the lookup of `generateRecipe` yields a member of the cache whose `name` is the
string `n` when the cache holds one, and that record is the one rendered; it yields
`undefined` ("not found") otherwise; whatever it yields is never a record of another name;
and when no two records of the cache share a name, every record of the cache named `n` is the
one it yields. -/
theorem lookup_exact_match (env : Env) (s : State) (rs : List JSValue)
    (hcache : s.allRecipes = .arr rs)
    (hn : selectValue s.recipeSelect ≠ "")
    (hrec : ∀ r ∈ rs, isNullish r = false) :
    ((∃ r ∈ rs, getField r "name" = .ok (.str (selectValue s.recipeSelect))) →
      ∃ r, arrayFind s.allRecipes (selectValue s.recipeSelect) = .ok r ∧ r ∈ rs ∧
        getField r "name" = .ok (.str (selectValue s.recipeSelect)) ∧
        generateRecipe env s = (renderCard env r).map (withCard s) ∧
        (rs.Pairwise (fun a b => getField a "name" ≠ getField b "name") →
          ∀ q ∈ rs, getField q "name" = .ok (.str (selectValue s.recipeSelect)) → q = r)) ∧
    ((¬ ∃ r ∈ rs, getField r "name" = .ok (.str (selectValue s.recipeSelect))) →
      arrayFind s.allRecipes (selectValue s.recipeSelect) = .ok .undefined) ∧
    (∀ r, arrayFind s.allRecipes (selectValue s.recipeSelect) = .ok r →
      r = .undefined ∨
        (r ∈ rs ∧ getField r "name" = .ok (.str (selectValue s.recipeSelect)))) := by
  rw [hcache]
  refine ⟨fun hex => ?_, fun hno => ?_, fun r hr => findByName_sound _ rs r hr⟩
  · obtain ⟨r, h1, h2, h3⟩ := findByName_of_match _ rs hrec hex
    refine ⟨r, h1, h2, h3, ?_, fun hpw q hq hqn => ?_⟩
    · exact generateRecipe_of_found env s r hn (by rw [hcache]; exact h1)
        (isFalsy_of_named r _ h3)
    · by_contra hne
      have hsymm : Symmetric (fun a b : JSValue => getField a "name" ≠ getField b "name") :=
        fun a b hab => fun h => hab h.symm
      exact hpw.forall hsymm hq h2 hne (hqn.trans h3.symm)
  · exact findByName_of_no_match _ rs hrec (fun r hr h => hno ⟨r, hr, h⟩)

theorem lookup_exact_match_witness :
    (∃ r, arrayFind (.arr [burger, soup]) "Soup" = .ok r ∧ r ∈ [burger, soup] ∧
        getField r "name" = .ok (.str "Soup") ∧
        generateRecipe sampleEnv (samplePage (.arr [burger, soup]) "Soup") =
          (renderCard sampleEnv r).map (withCard (samplePage (.arr [burger, soup]) "Soup")) ∧
        (([burger, soup] : List JSValue).Pairwise
            (fun a b => getField a "name" ≠ getField b "name") →
          ∀ q ∈ [burger, soup], getField q "name" = .ok (.str "Soup") → q = r)) ∧
    arrayFind (.arr [burger, soup]) "soup" = .ok .undefined ∧
    arrayFind (.arr [burger, soup]) "Sou" = .ok .undefined :=
  ⟨(lookup_exact_match sampleEnv (samplePage (.arr [burger, soup]) "Soup") [burger, soup] rfl
      (by decide) (by simp [isNullish, burger, soup])).1 ⟨soup, by simp, rfl⟩,
    rfl, rfl⟩

/-- C2: on a cache of records (no `undefined` or `null` element), when the selected name is
empty or is the name of no record of the cache, `generateRecipe` raises no error and returns
the state it was given: cache, selector, card markup and class list are all as before. With an
empty selected name this holds for any cache. -/
theorem generateRecipe_noop_when_unresolved (env : Env) (s : State)
    (h : selectValue s.recipeSelect = "" ∨
      ∃ rs, s.allRecipes = .arr rs ∧ (∀ r ∈ rs, isNullish r = false) ∧
        ∀ r ∈ rs, getField r "name" ≠ .ok (.str (selectValue s.recipeSelect))) :
    generateRecipe env s = .ok s := by
  rcases h with h | ⟨rs, hc, hrec, hno⟩
  · exact generateRecipe_of_empty env s h
  · apply generateRecipe_of_not_found
    rw [hc]
    exact findByName_of_no_match _ rs hrec hno

theorem generateRecipe_noop_when_unresolved_witness :
    generateRecipe sampleEnv (samplePage (.arr [burger, soup]) "Pie") =
        .ok (samplePage (.arr [burger, soup]) "Pie") ∧
      generateRecipe sampleEnv (samplePage (.arr [burger, soup]) "") =
        .ok (samplePage (.arr [burger, soup]) "") :=
  ⟨generateRecipe_noop_when_unresolved sampleEnv (samplePage (.arr [burger, soup]) "Pie")
      (Or.inr ⟨[burger, soup], rfl, by simp [isNullish, burger, soup],
        by simp [burger, soup, getField, ownProperty, selectValue, samplePage, OptionEl.value,
          chooseOption]⟩),
    generateRecipe_noop_when_unresolved sampleEnv (samplePage (.arr [burger, soup]) "")
      (Or.inl rfl)⟩

/-- C9: rendering depends on the resolved record only and is idempotent. When the selected
name resolves to a record whose card renders to `html`, then whatever the container held
before (markup and classes), `generateRecipe` leaves exactly `html` in it; and whenever
`generateRecipe` returns a state, running it again on that state returns the same state. -/
theorem generateRecipe_pure_idempotent (env : Env) (s : State) :
    (∀ s1, generateRecipe env s = .ok s1 → generateRecipe env s1 = .ok s1) ∧
    (∀ r html, selectValue s.recipeSelect ≠ "" →
      arrayFind s.allRecipes (selectValue s.recipeSelect) = .ok r → isFalsy r = false →
      renderCard env r = .ok html →
      ∀ prior : Element,
        generateRecipe env { s with resultContainer := prior } =
          .ok (withCard { s with resultContainer := prior } html) ∧
        (withCard { s with resultContainer := prior } html).resultContainer.innerHTML = html)
    := by
  refine ⟨fun s1 h1 => ?_, fun r html hs hf hr hc prior => ⟨?_, rfl⟩⟩
  · by_cases hs : selectValue s.recipeSelect = ""
    · rw [generateRecipe_of_empty env s hs] at h1
      cases h1
      exact generateRecipe_of_empty env s hs
    · cases hf : arrayFind s.allRecipes (selectValue s.recipeSelect) with
      | error e => simp [generateRecipe, hs, hf] at h1
      | ok r =>
        cases hr : isFalsy r with
        | true =>
          have : generateRecipe env s = .ok s := by simp [generateRecipe, hs, hf, hr]
          rw [this] at h1
          cases h1
          exact this
        | false =>
          rw [generateRecipe_of_found env s r hs hf hr] at h1
          cases hc : renderCard env r with
          | error e => simp [hc, Except.map] at h1
          | ok html =>
            simp only [hc, Except.map] at h1
            cases h1
            rw [generateRecipe_of_found env (withCard s html) r hs hf hr, hc]
            simp [Except.map, withCard_withCard]
  · rw [generateRecipe_of_found env { s with resultContainer := prior } r hs hf hr, hc]
    rfl

theorem generateRecipe_pure_idempotent_witness :
    generateRecipe sampleEnv
        (withCard (samplePage (.arr [burger, soup]) "Soup")
          (cardHtml (imgHtml "/static/img/foods/food_soup.png" "Soup") "Soup" "45" "12"
            (groupHtml "Broth" (chipHtml "Water") ++ groupHtml "Garnish" noItemsHtml))) =
      .ok (withCard (samplePage (.arr [burger, soup]) "Soup")
          (cardHtml (imgHtml "/static/img/foods/food_soup.png" "Soup") "Soup" "45" "12"
            (groupHtml "Broth" (chipHtml "Water") ++ groupHtml "Garnish" noItemsHtml))) ∧
    generateRecipe sampleEnv
        { samplePage (.arr [burger, soup]) "Soup" with
          resultContainer := { innerHTML := "another card", classList := ["x", "opacity-0"] } } =
      .ok (withCard
          { samplePage (.arr [burger, soup]) "Soup" with
            resultContainer := { innerHTML := "another card", classList := ["x", "opacity-0"] } }
          (cardHtml (imgHtml "/static/img/foods/food_soup.png" "Soup") "Soup" "45" "12"
            (groupHtml "Broth" (chipHtml "Water") ++ groupHtml "Garnish" noItemsHtml))) :=
  ⟨(generateRecipe_pure_idempotent sampleEnv (samplePage (.arr [burger, soup]) "Soup")).1 _ rfl,
    ((generateRecipe_pure_idempotent sampleEnv (samplePage (.arr [burger, soup]) "Soup")).2
      soup _ (by decide) rfl rfl rfl
      { innerHTML := "another card", classList := ["x", "opacity-0"] }).1⟩

/-- C3: after a fetch that decodes a non-empty array of records with string names, under a
consistent comparison, the entries of the selector after the placeholder are, in display
order, one option per fetched record with value and text equal to the name of the record; the
names read in that order are a permutation of the fetched names and ascend under the
comparison; and the records behind them, which are the new cache, keep their payload order
among records of one name. -/
theorem selector_lists_sorted_names (env : Env) (net : String → FetchOutcome) (s : State)
    (P : List JSValue) (hc : ConsistentCompare env)
    (hnet : net (recipesUrl s.shopFilter) = .decoded (.arr P))
    (hne : P ≠ [])
    (hP : ∀ r ∈ P, hasStringName r = true) :
    ∃ sorted : List JSValue,
      (fetchRecipes env net s).allRecipes = .arr sorted ∧
      (fetchRecipes env net s).recipeSelect =
        chooseOption :: (sorted.map recipeName).map optionOfName ∧
      (∀ o ∈ (fetchRecipes env net s).recipeSelect.tail,
        o.value = o.text ∧ o.disabled = false) ∧
      (fetchRecipes env net s).recipeSelect.tail.map (fun o => o.text) =
        sorted.map recipeName ∧
      (fetchRecipes env net s).recipeSelect.tail.length = P.length ∧
      (sorted.map recipeName).Perm (P.map recipeName) ∧
      (sorted.map recipeName).Sorted (fun a b => env.localeCompare a b ≤ 0) ∧
      sorted.Perm P ∧
      ∀ n, sorted.filter (fun r => recipeName r = n) = P.filter (fun r => recipeName r = n) := by
  have hlen : ¬ P.length = 0 := fun h => hne (List.length_eq_zero.1 h)
  have hsel := fetchRecipes_recipeSelect_of_named env net s P hnet hP
  simp only [hlen, if_false] at hsel
  have hperm := List.perm_insertionSort (nameLe env) P
  refine ⟨P.insertionSort (nameLe env), fetchRecipes_allRecipes_of_named env net s P hnet hP,
    ?_, ?_, ?_, ?_, hperm.map _, ?_, hperm, ?_⟩
  · rw [hsel, List.map_map]
    rfl
  · rw [hsel]
    intro o ho
    simp only [List.tail_cons, List.mem_map] at ho
    obtain ⟨r, _, rfl⟩ := ho
    exact ⟨rfl, rfl⟩
  · rw [hsel]
    simp [optionOfName]
  · rw [hsel]
    simp
  · have := sorted_insertionSort_name env hc P
    exact List.pairwise_map.2 this
  · intro n
    exact filter_insertionSort_name env (consistent_refl env hc) n P

theorem selector_lists_sorted_names_witness :
    ∃ sorted : List JSValue,
      (fetchRecipes sampleEnv (constNet (.decoded (.arr [soup, burger])))
        (samplePage (.arr []) "")).allRecipes = .arr sorted ∧
      (fetchRecipes sampleEnv (constNet (.decoded (.arr [soup, burger])))
        (samplePage (.arr []) "")).recipeSelect =
        chooseOption :: (sorted.map recipeName).map optionOfName ∧
      (∀ o ∈ (fetchRecipes sampleEnv (constNet (.decoded (.arr [soup, burger])))
          (samplePage (.arr []) "")).recipeSelect.tail,
        o.value = o.text ∧ o.disabled = false) ∧
      (fetchRecipes sampleEnv (constNet (.decoded (.arr [soup, burger])))
        (samplePage (.arr []) "")).recipeSelect.tail.map (fun o => o.text) =
        sorted.map recipeName ∧
      (fetchRecipes sampleEnv (constNet (.decoded (.arr [soup, burger])))
        (samplePage (.arr []) "")).recipeSelect.tail.length = [soup, burger].length ∧
      (sorted.map recipeName).Perm ([soup, burger].map recipeName) ∧
      (sorted.map recipeName).Sorted (fun a b => sampleEnv.localeCompare a b ≤ 0) ∧
      sorted.Perm [soup, burger] ∧
      ∀ n, sorted.filter (fun r => recipeName r = n) =
        [soup, burger].filter (fun r => recipeName r = n) :=
  selector_lists_sorted_names sampleEnv (constNet (.decoded (.arr [soup, burger])))
    (samplePage (.arr []) "") [soup, burger] sampleEnv_consistent rfl (by simp)
    (by simp [hasStringName, soup, burger, getField, ownProperty])

/-- C10: after a fetch that decodes an array `P` of records with string names, under a
consistent comparison and whatever the cache held before, the cache is a permutation of `P`
ascending by name, so that every record of it is a record of `P`; it is the same for any two
prior caches; and the selection is reset: the selected entry of the selector is the disabled
placeholder, whose value is empty. -/
theorem fetch_replaces_cache_and_resets_selection (env : Env) (net : String → FetchOutcome)
    (s : State) (P : List JSValue) (hc : ConsistentCompare env)
    (hnet : net (recipesUrl s.shopFilter) = .decoded (.arr P))
    (hP : ∀ r ∈ P, hasStringName r = true) :
    (∃ sorted : List JSValue,
      (fetchRecipes env net s).allRecipes = .arr sorted ∧ sorted.Perm P ∧
      sorted.Sorted (nameLe env) ∧ (∀ r ∈ sorted, r ∈ P) ∧
      ∀ prior, (fetchRecipes env net { s with allRecipes := prior }).allRecipes = .arr sorted) ∧
    (fetchRecipes env net s).recipeSelect.find? (fun o => o.selected) = some chooseOption ∧
    chooseOption.disabled = true ∧
    selectValue (fetchRecipes env net s).recipeSelect = "" := by
  have hperm := List.perm_insertionSort (nameLe env) P
  have hsel := fetchRecipes_recipeSelect_of_named env net s P hnet hP
  refine ⟨⟨P.insertionSort (nameLe env), fetchRecipes_allRecipes_of_named env net s P hnet hP,
    hperm, sorted_insertionSort_name env hc P, fun r hr => hperm.subset hr, fun prior => ?_⟩,
    ?_, rfl, ?_⟩
  · exact fetchRecipes_allRecipes_of_named env net { s with allRecipes := prior } P hnet hP
  · rw [hsel]
    split <;> rfl
  · rw [hsel]
    split <;> rfl

theorem fetch_replaces_cache_and_resets_selection_witness :
    (∃ sorted : List JSValue,
      (fetchRecipes sampleEnv (constNet (.decoded (.arr [soup, burger])))
        (samplePage (.arr [bareRecord]) "Pie")).allRecipes = .arr sorted ∧
      sorted.Perm [soup, burger] ∧ sorted.Sorted (nameLe sampleEnv) ∧
      (∀ r ∈ sorted, r ∈ [soup, burger]) ∧
      ∀ prior, (fetchRecipes sampleEnv (constNet (.decoded (.arr [soup, burger])))
        { samplePage (.arr [bareRecord]) "Pie" with allRecipes := prior }).allRecipes =
          .arr sorted) ∧
    (fetchRecipes sampleEnv (constNet (.decoded (.arr [soup, burger])))
      (samplePage (.arr [bareRecord]) "Pie")).recipeSelect.find? (fun o => o.selected) =
        some chooseOption ∧
    chooseOption.disabled = true ∧
    selectValue (fetchRecipes sampleEnv (constNet (.decoded (.arr [soup, burger])))
      (samplePage (.arr [bareRecord]) "Pie")).recipeSelect = "" :=
  fetch_replaces_cache_and_resets_selection sampleEnv (constNet (.decoded (.arr [soup, burger])))
    (samplePage (.arr [bareRecord]) "Pie") [soup, burger] sampleEnv_consistent rfl
    (by simp [hasStringName, soup, burger, getField, ownProperty])

/-- C4: after a fetch that decodes the empty array, the selector holds the placeholder
followed by exactly one "no results" entry, which is disabled and is the only entry with that
text; the cache is empty; and from then on `generateRecipe` returns the state it was given
whatever the selector and the container hold, so no card is rendered. -/
theorem empty_fetch_shows_no_results (env : Env) (net : String → FetchOutcome) (s : State)
    (hnet : net (recipesUrl s.shopFilter) = .decoded (.arr [])) :
    (fetchRecipes env net s).recipeSelect = [chooseOption, noRecipesOption] ∧
    noRecipesOption.disabled = true ∧
    noRecipesOption.text = "No recipes found matching criteria" ∧
    ((fetchRecipes env net s).recipeSelect.filter
      (fun o => o.text = "No recipes found matching criteria")).length = 1 ∧
    (∀ o ∈ (fetchRecipes env net s).recipeSelect, o.disabled = true) ∧
    (fetchRecipes env net s).allRecipes = .arr [] ∧
    ∀ (options : List OptionEl) (container : Element),
      generateRecipe env
          { fetchRecipes env net s with recipeSelect := options, resultContainer := container } =
        .ok { fetchRecipes env net s with
              recipeSelect := options, resultContainer := container } := by
  have hsel := fetchRecipes_recipeSelect_of_named env net s [] hnet (by simp)
  have hcache := fetchRecipes_allRecipes_of_named env net s [] hnet (by simp)
  simp only [List.length_nil, if_true] at hsel
  simp only [List.insertionSort] at hcache
  refine ⟨hsel, rfl, rfl, ?_, ?_, hcache, fun options container => ?_⟩
  · rw [hsel]
    rfl
  · rw [hsel]
    intro o ho
    simp only [List.mem_cons, List.mem_singleton, List.not_mem_nil, or_false] at ho
    rcases ho with rfl | rfl <;> rfl
  · apply generateRecipe_of_not_found
    show arrayFind (fetchRecipes env net s).allRecipes _ = _
    rw [hcache]
    rfl

theorem empty_fetch_shows_no_results_witness :
    (fetchRecipes sampleEnv (constNet (.decoded (.arr [])))
      (samplePage (.arr [burger]) "Burger")).recipeSelect = [chooseOption, noRecipesOption] ∧
    generateRecipe sampleEnv
        { fetchRecipes sampleEnv (constNet (.decoded (.arr [])))
            (samplePage (.arr [burger]) "Burger") with
          recipeSelect := (samplePage (.arr [burger]) "Burger").recipeSelect
          resultContainer := { innerHTML := "", classList := [] } } =
      .ok { fetchRecipes sampleEnv (constNet (.decoded (.arr [])))
              (samplePage (.arr [burger]) "Burger") with
            recipeSelect := (samplePage (.arr [burger]) "Burger").recipeSelect
            resultContainer := { innerHTML := "", classList := [] } } :=
  ⟨(empty_fetch_shows_no_results sampleEnv (constNet (.decoded (.arr [])))
      (samplePage (.arr [burger]) "Burger") rfl).1,
    (empty_fetch_shows_no_results sampleEnv (constNet (.decoded (.arr [])))
      (samplePage (.arr [burger]) "Burger") rfl).2.2.2.2.2.2 _ _⟩

/-- C5, at the failing input: for a cached record named `constructor`, a string outside the
table, `generateRecipe` does not render the fallback glyph; the table lookup reaches the
member of `Object.prototype` of that name, and the card holds an `img` element whose source
is the image path followed by the text of that built-in function. -/
theorem inherited_key_renders_img (env : Env) :
    IMAGE_MAP.lookup "constructor" = none ∧
    generateRecipe env (samplePage (.arr [constructorRecord]) "constructor") =
      .ok (withCard (samplePage (.arr [constructorRecord]) "constructor")
        (cardHtml
          (imgHtml ("/static/img/foods/" ++ env.nativeFunctionToString "constructor")
            "constructor")
          "constructor" (env.numberToString 5) (env.numberToLocaleString 1) "")) ∧
    imageHtml env "constructor" "constructor" ≠ fallbackGlyph := by
  have himg : imageHtml env "constructor" "constructor" =
      imgHtml ("/static/img/foods/" ++ env.nativeFunctionToString "constructor")
        "constructor" := by
    rw [imageHtml_of_inherited env "constructor" "constructor" (by decide)]
    rfl
  refine ⟨rfl, ?_, ?_⟩
  · rw [generateRecipe_of_found env (samplePage (.arr [constructorRecord]) "constructor")
        constructorRecord (by decide) rfl rfl,
      renderCard_of_fields env constructorRecord "constructor" [] 1 (.num 5)
        (env.numberToString 5) rfl rfl (by intro c hc; cases hc) rfl (by simp [toStr]) rfl,
      himg]
    rfl
  · rw [himg]
    exact imgHtml_ne_fallbackGlyph _ _

/-- C8, counterexample: for a cached record without an `ingredients` field, selected by its
name, `generateRecipe` raises a `TypeError`; no card is rendered. -/
theorem absent_ingredients_raises :
    arrayFind (.arr [bareRecord]) "Pie" = .ok bareRecord ∧
    getField bareRecord "ingredients" = .ok .undefined ∧
    generateRecipe sampleEnv (samplePage (.arr [bareRecord]) "Pie") = .error .typeError :=
  ⟨rfl, rfl, rfl⟩

/-- C8, amended: for every cached record selected by name whose `ingredients` is a mapping
from categories to lists of strings or to values that are not lists, whose `combinations` is a
number and whose `base_time` is a number or is missing, `generateRecipe` completes without
raising and shows the card of the record; a missing `base_time` prints as `undefined`, and a
record whose `ingredients` is the empty mapping gets a card with no ingredient group. -/
theorem render_total_on_model_records (env : Env) (s : State) (r : JSValue)
    (cats : List (String × JSValue)) (k : Int) (bt : JSValue)
    (hsel : selectValue s.recipeSelect ≠ "")
    (hfind : arrayFind s.allRecipes (selectValue s.recipeSelect) = .ok r)
    (hing : getField r "ingredients" = .ok (.obj cats))
    (hitems : itemsAreStrings cats)
    (hcomb : getField r "combinations" = .ok (.num k))
    (hbt : getField r "base_time" = .ok bt)
    (hbtShape : (∃ t, bt = .num t) ∨ bt = .undefined) :
    ∃ btText,
      toStr env bt = .ok btText ∧ (bt = .undefined → btText = "undefined") ∧
      generateRecipe env s =
        .ok (withCard s
          (cardHtml
            (imageHtml env (selectValue s.recipeSelect) (selectValue s.recipeSelect))
            (selectValue s.recipeSelect) btText (env.numberToLocaleString k)
            (specIngredientSection cats))) ∧
      (cats = [] → specIngredientSection cats = "") := by
  obtain ⟨rs, hrs⟩ := arrayFind_ok_is_arr _ _ _ hfind
  have hname : getField r "name" = .ok (.str (selectValue s.recipeSelect)) := by
    rw [hrs] at hfind
    rcases findByName_sound _ rs r hfind with h | ⟨_, h⟩
    · subst h
      simp [getField] at hing
    · exact h
  have hbtText : ∃ btText, toStr env bt = .ok btText ∧ (bt = .undefined → btText = "undefined") := by
    rcases hbtShape with ⟨t, rfl⟩ | rfl
    · exact ⟨env.numberToString t, by simp [toStr], fun h => by cases h⟩
    · exact ⟨"undefined", by simp [toStr], fun _ => rfl⟩
  obtain ⟨btText, h1, h2⟩ := hbtText
  refine ⟨btText, h1, h2, ?_, fun hc => by subst hc; rfl⟩
  rw [generateRecipe_of_found env s r hsel hfind (isFalsy_of_named r _ hname),
    renderCard_of_fields env r _ cats k bt btText hname hing hitems hbt h1 hcomb]
  rfl

theorem render_total_on_model_records_witness :
    ∃ btText,
      toStr sampleEnv .undefined = .ok btText ∧
      (JSValue.undefined = JSValue.undefined → btText = "undefined") ∧
      generateRecipe sampleEnv
          (samplePage (.arr [.obj [("name", .str "Tea"), ("combinations", .num 7),
            ("ingredients", .obj [])]]) "Tea") =
        .ok (withCard
          (samplePage (.arr [.obj [("name", .str "Tea"), ("combinations", .num 7),
            ("ingredients", .obj [])]]) "Tea")
          (cardHtml (imageHtml sampleEnv "Tea" "Tea") "Tea" btText
            (sampleEnv.numberToLocaleString 7) (specIngredientSection []))) ∧
      (([] : List (String × JSValue)) = [] → specIngredientSection [] = "") :=
  render_total_on_model_records sampleEnv
    (samplePage (.arr [.obj [("name", .str "Tea"), ("combinations", .num 7),
      ("ingredients", .obj [])]]) "Tea")
    (.obj [("name", .str "Tea"), ("combinations", .num 7), ("ingredients", .obj [])])
    [] 7 .undefined (by decide) rfl rfl (by intro c hc; cases hc) rfl rfl (Or.inr rfl)

/-! ## Further properties -/

/-- X1: whenever `fetchRecipes` leaves an entry in the selector that can be chosen (one that
is not disabled), the cache is an array without `undefined` or `null` elements: the states in
which a name can be selected are states whose cache is a list of records. -/
theorem selectable_entry_implies_record_cache (env : Env) (net : String → FetchOutcome)
    (s : State)
    (h : ∃ o ∈ (fetchRecipes env net s).recipeSelect, o.disabled = false) :
    ∃ rs, (fetchRecipes env net s).allRecipes = .arr rs ∧ ∀ r ∈ rs, isNullish r = false := by
  have hcatch : ∀ t : State, ¬ ∃ o ∈ (fetchRecipesCatch t).recipeSelect, o.disabled = false := by
    intro t ⟨o, ho, hd⟩
    simp only [fetchRecipesCatch, List.mem_singleton] at ho
    subst ho
    cases hd
  unfold fetchRecipes fetchRecipesResolve at h ⊢
  cases hnet : net (recipesUrl s.shopFilter) with
  | networkFailure => simp only [hnet] at h; exact absurd h (hcatch _)
  | undecodable => simp only [hnet] at h; exact absurd h (hcatch _)
  | decoded payload =>
    simp only [hnet] at h ⊢
    cases hsort : arraySort env payload with
    | error e => simp only [hsort] at h; exact absurd h (hcatch _)
    | ok sorted =>
      simp only [hsort] at h ⊢
      by_cases hlen : sorted.length = 0
      · simp only [hlen, if_true, fetchStats_recipeSelect] at h
        obtain ⟨o, ho, hd⟩ := h
        simp only [List.mem_cons, List.mem_singleton, List.not_mem_nil, or_false] at ho
        rcases ho with rfl | rfl <;> cases hd
      · simp only [hlen, if_false] at h ⊢
        cases hopt : recipeOptions env sorted with
        | error e => simp only [hopt] at h; exact absurd h (hcatch _)
        | ok options =>
          simp only [hopt, fetchStats_allRecipes]
          exact ⟨sorted, rfl, recipeOptions_ok_not_nullish env sorted options hopt⟩

theorem selectable_entry_implies_record_cache_witness :
    ∃ rs, (fetchRecipes sampleEnv (constNet (.decoded (.arr [soup, burger])))
        (samplePage (.arr []) "")).allRecipes = .arr rs ∧ ∀ r ∈ rs, isNullish r = false :=
  selectable_entry_implies_record_cache sampleEnv (constNet (.decoded (.arr [soup, burger])))
    (samplePage (.arr []) "") ⟨optionOfName "Soup", by decide, rfl⟩

/-- X2: a recipe name that is a key of the image table resolves to the image path followed by
the file the table maps it to, and the card shows an `img` element with that source. -/
theorem table_name_resolves_to_mapped_file (env : Env) (name file alt : String)
    (h : (name, file) ∈ IMAGE_MAP) :
    IMAGE_MAP.length = 18 ∧
    imageSrc env name = "/static/img/foods/" ++ file ∧
    imageHtml env name alt = imgHtml ("/static/img/foods/" ++ file) alt :=
  ⟨rfl, imageHtml_of_table env name file alt h⟩

theorem table_name_resolves_to_mapped_file_witness :
    IMAGE_MAP.length = 18 ∧
    imageSrc sampleEnv "Burger" = "/static/img/foods/" ++ "food_burger.webp" ∧
    imageHtml sampleEnv "Burger" "Burger" =
      imgHtml ("/static/img/foods/" ++ "food_burger.webp") "Burger" :=
  table_name_resolves_to_mapped_file sampleEnv "Burger" "food_burger.webp" "Burger"
    (by decide)

/-- X3: a recipe name that is neither a key of the image table nor a key of
`Object.prototype` resolves to the fallback glyph; no `img` element is produced. -/
theorem unmapped_name_resolves_to_glyph (env : Env) (name alt : String)
    (h1 : name ∉ IMAGE_MAP.map Prod.fst) (h2 : name ∉ objectPrototypeKeys) :
    imageSrc env name = "" ∧ imageHtml env name alt = fallbackGlyph :=
  imageHtml_of_absent env name alt h1 h2

theorem unmapped_name_resolves_to_glyph_witness :
    imageSrc sampleEnv "Unknown Dish" = "" ∧
    imageHtml sampleEnv "Unknown Dish" "Unknown Dish" = fallbackGlyph :=
  unmapped_name_resolves_to_glyph sampleEnv "Unknown Dish" "Unknown Dish" (by decide)
    (by decide)

end RecipeGenerator
